import Mathlib

/-!
Verification of the InsightVault-Lite natural-language query routing engine
(src/src/app/api/chat/route.ts, heuristic router) and, where noted, of the
tool-calling route variant. Rows are modelled as ordered association lists
from column name to string value; JavaScript numbers are modelled as exact
rationals, with NaN and the infinities collapsed into the none case of
Option (all data relevant to the verified properties is finite decimal).
-/

attribute [local semireducible] Rat.add Rat.mul Rat.sub Rat.inv

-- ── Character / string utilities ───────────────────────────────────────────

/-- Does the second character list occur at the head of the first? -/
def seqStarts : List Char → List Char → Bool
  | _, [] => true
  | [], _ :: _ => false
  | a :: s, b :: t => a == b && seqStarts s t

/-- Does the second character list occur contiguously anywhere in the first?
Models the JavaScript String.includes used for fuzzy field matching. -/
def seqContains : List Char → List Char → Bool
  | [], t => seqStarts [] t
  | a :: s, t => seqStarts (a :: s) t || seqContains s t

/-- s.includes(sub) on strings. -/
def jsIncludes (s sub : String) : Bool :=
  seqContains s.toList sub.toList

/-- A character matched by the regex class of underscore-or-whitespace. -/
def isWsU (c : Char) : Bool := c.isWhitespace || c == '_'

/-- The replace of every underscore/whitespace run with the empty string. -/
def stripWsU (s : String) : String :=
  String.mk (s.toList.filter (fun c => !isWsU c))

/-- Helper for collapseWsU: the flag records whether the previous character
was part of an underscore/whitespace run. -/
def collapseGo : Bool → List Char → List Char
  | _, [] => []
  | inWs, c :: cs =>
    if isWsU c then
      if inWs then collapseGo true cs else ' ' :: collapseGo true cs
    else c :: collapseGo false cs

/-- The replace of every underscore/whitespace run with one space. -/
def collapseWsU (s : String) : String :=
  String.mk (collapseGo false s.toList)

/-- ASCII lowering of one character, the effect of toLowerCase on the
engine's column names and values. -/
def charLower (c : Char) : Char :=
  if 65 ≤ c.toNat && c.toNat ≤ 90 then Char.ofNat (c.toNat + 32) else c

/-- The toLowerCase call, over the ASCII range the engine's data uses. -/
def jsLower (s : String) : String :=
  String.mk (s.toList.map charLower)

/-- Trims leading and trailing whitespace from a character list. -/
def trimBoth (cs : List Char) : List Char :=
  ((cs.dropWhile Char.isWhitespace).reverse.dropWhile Char.isWhitespace).reverse

/-- The trim call of the source. -/
def jsTrim (s : String) : String :=
  String.mk (trimBoth s.toList)

-- ── JavaScript number parsing, modelled over ℚ ─────────────────────────────

/-- Accumulates a decimal digit list into a natural number. -/
def natOfDigits : Nat → List Char → Nat
  | acc, [] => acc
  | acc, c :: cs => natOfDigits (acc * 10 + (c.toNat - 48)) cs

/-- The exponent that parseFloat reads after the letter e: an optional sign
followed by digits; a missing digit sequence contributes exponent zero
because parseFloat backtracks to the mantissa alone. -/
def expVal : List Char → Int
  | '+' :: r =>
    let ds := r.takeWhile Char.isDigit
    if ds.isEmpty then 0 else (natOfDigits 0 ds : Int)
  | '-' :: r =>
    let ds := r.takeWhile Char.isDigit
    if ds.isEmpty then 0 else -(natOfDigits 0 ds : Int)
  | r =>
    let ds := r.takeWhile Char.isDigit
    if ds.isEmpty then 0 else (natOfDigits 0 ds : Int)

/-- JavaScript parseFloat: skip leading whitespace, read an optional sign, a
decimal mantissa and an optional exponent from the longest valid prefix, and
ignore everything after it. none models NaN (no digits at all); the Infinity
literal, which real parseFloat accepts, is also modelled as none since the
engine only ever meets finite decimal data. -/
def parseFloat (s : String) : Option ℚ :=
  let cs0 := s.toList.dropWhile Char.isWhitespace
  let sign : ℚ := match cs0 with
    | '-' :: _ => -1
    | _ => 1
  let cs1 := match cs0 with
    | '-' :: r => r
    | '+' :: r => r
    | r => r
  let ip := cs1.takeWhile Char.isDigit
  let cs2 := cs1.dropWhile Char.isDigit
  let fp := match cs2 with
    | '.' :: r => r.takeWhile Char.isDigit
    | _ => []
  let cs3 := match cs2 with
    | '.' :: r => r.dropWhile Char.isDigit
    | r => r
  if ip.isEmpty && fp.isEmpty then none
  else
    let mant : ℚ := (natOfDigits 0 ip : ℚ) + (natOfDigits 0 fp : ℚ) / (10 : ℚ) ^ fp.length
    let e : Int := match cs3 with
      | 'e' :: r => expVal r
      | 'E' :: r => expVal r
      | _ => 0
    some (sign * mant * (10 : ℚ) ^ e)

/-- The value of a hexadecimal digit character. -/
def hexDigVal (c : Char) : Option Nat :=
  if c.isDigit then some (c.toNat - 48)
  else if 'a' ≤ c && c ≤ 'f' then some (c.toNat - 87)
  else if 'A' ≤ c && c ≤ 'F' then some (c.toNat - 55)
  else none

/-- The value of a digit character in the given base, when valid there. -/
def baseDigVal (b : Nat) (c : Char) : Option Nat :=
  match hexDigVal c with
  | some d => if d < b then some d else none
  | none => none

/-- Reads an entire digit list in the given base; any invalid digit yields
none. -/
def baseNatGo (b : Nat) : Nat → List Char → Option Nat
  | acc, [] => some acc
  | acc, c :: cs =>
    match baseDigVal b c with
    | some d => baseNatGo b (acc * b + d) cs
    | none => none

/-- A nonempty all-valid digit list in the given base. -/
def baseNat (b : Nat) (cs : List Char) : Option Nat :=
  if cs.isEmpty then none else baseNatGo b 0 cs

/-- The exponent clause of a full-string numeric literal: optional sign then
digits, which must consume the whole remainder. -/
def expFull (sign mant : ℚ) (r : List Char) : Option ℚ :=
  let esign : Int := match r with
    | '-' :: _ => -1
    | _ => 1
  let r1 := match r with
    | '-' :: t => t
    | '+' :: t => t
    | t => t
  let ds := r1.takeWhile Char.isDigit
  let rest := r1.dropWhile Char.isDigit
  if ds.isEmpty || !rest.isEmpty then none
  else some (sign * mant * (10 : ℚ) ^ (esign * (natOfDigits 0 ds : Int)))

/-- A full-string decimal literal with optional sign, fraction and exponent;
unlike parseFloat the whole input must be consumed. -/
def decFull (cs : List Char) : Option ℚ :=
  let sign : ℚ := match cs with
    | '-' :: _ => -1
    | _ => 1
  let cs1 := match cs with
    | '-' :: r => r
    | '+' :: r => r
    | r => r
  let ip := cs1.takeWhile Char.isDigit
  let cs2 := cs1.dropWhile Char.isDigit
  let fp := match cs2 with
    | '.' :: r => r.takeWhile Char.isDigit
    | _ => []
  let cs3 := match cs2 with
    | '.' :: r => r.dropWhile Char.isDigit
    | r => r
  if ip.isEmpty && fp.isEmpty then none
  else
    let mant : ℚ := (natOfDigits 0 ip : ℚ) + (natOfDigits 0 fp : ℚ) / (10 : ℚ) ^ fp.length
    match cs3 with
    | [] => some (sign * mant)
    | 'e' :: r => expFull sign mant r
    | 'E' :: r => expFull sign mant r
    | _ => none

/-- JavaScript Number conversion of a string: trim, empty maps to zero, then
a full-string decimal, hexadecimal, binary or octal literal; none models NaN
and the infinities (so isFinite of the conversion is exactly isSome here). -/
def toNumber (s : String) : Option ℚ :=
  match trimBoth s.toList with
  | [] => some 0
  | '0' :: 'x' :: r => (baseNat 16 r).map (fun n => (n : ℚ))
  | '0' :: 'X' :: r => (baseNat 16 r).map (fun n => (n : ℚ))
  | '0' :: 'b' :: r => (baseNat 2 r).map (fun n => (n : ℚ))
  | '0' :: 'B' :: r => (baseNat 2 r).map (fun n => (n : ℚ))
  | '0' :: 'o' :: r => (baseNat 8 r).map (fun n => (n : ℚ))
  | '0' :: 'O' :: r => (baseNat 8 r).map (fun n => (n : ℚ))
  | cs =>
    if cs == "Infinity".toList || cs == "+Infinity".toList || cs == "-Infinity".toList then none
    else decFull cs

-- ── Rows ───────────────────────────────────────────────────────────────────

/-- A row: an ordered association list from lowercase column name to string
value, the shallow embedding of the Record of string to string objects that
parseChunk produces. -/
abbrev Row := List (String × String)

/-- rec[k] as an Option: the first binding of the key. -/
def lookupVal (rec : Row) (k : String) : Option String :=
  (rec.find? (fun p => p.1 == k)).map Prod.snd

/-- rec[k] with the missing case read as the empty string. -/
def getVal (rec : Row) (k : String) : String :=
  (lookupVal rec k).getD ""

/-- Object.keys(rec), in insertion order. -/
def keysOf (rec : Row) : List String :=
  rec.map Prod.fst

/-- JavaScript truthiness of rec[k]: the key is present with a nonempty
value. -/
def truthyAt (rec : Row) (k : String) : Bool :=
  match lookupVal rec k with
  | some v => !(v == "")
  | none => false

-- ── Sorting (the stable comparator sorts used by the executors) ────────────

/-- Stable descending insertion by key: an earlier element stays before later
elements of equal key, matching the stable JavaScript Array.sort with the
comparator on key differences. -/
def insertDescBy {α β : Type} [LinearOrder β] (key : α → β) (x : α) : List α → List α
  | [] => [x]
  | y :: ys => if key y ≤ key x then x :: y :: ys else y :: insertDescBy key x ys

/-- Stable descending sort by key. -/
def sortDescBy {α β : Type} [LinearOrder β] (key : α → β) : List α → List α
  | [] => []
  | x :: xs => insertDescBy key x (sortDescBy key xs)

/-- Stable ascending insertion by key. -/
def insertAscBy {α β : Type} [LinearOrder β] (key : α → β) (x : α) : List α → List α
  | [] => [x]
  | y :: ys => if key x ≤ key y then x :: y :: ys else y :: insertAscBy key x ys

/-- Stable ascending sort by key. -/
def sortAscBy {α β : Type} [LinearOrder β] (key : α → β) : List α → List α
  | [] => []
  | x :: xs => insertAscBy key x (sortAscBy key xs)

-- ── Dataset schema ─────────────────────────────────────────────────────────

/-- The inferred schema, the DatasetSchema interface of the heuristic route. -/
structure DatasetSchema where
  allFields : List String
  numericFields : List String
  categoricalFields : List String
  titleField : Option String
  aliases : List (String × String)
  ranges : List (String × (ℚ × ℚ))
  topValues : List (String × List String)
deriving DecidableEq

/-- The FIELD_SYNONYMS table of the heuristic route, in source order. -/
def FIELD_SYNONYMS : List (String × List String) :=
  [ ("rating", ["rate", "score", "imdb", "stars", "rated"]),
    ("boxoffice", ["boxoffice", "box_office", "revenue", "gross", "earning", "earnings"]),
    ("units_sold", ["sold", "qty", "quantity", "units", "items_sold", "count_sold", "sales", "sales_volume", "volume", "amount_sold"]),
    ("duration", ["runtime", "length", "minutes", "mins", "long", "time"]),
    ("year", ["release", "released", "yr", "decade"]),
    ("age", ["old", "years_old"]),
    ("fare", ["ticket", "price", "cost", "fee", "paid", "unit_price", "rate", "charge"]),
    ("votes", ["vote", "reviews", "review"]),
    ("profit", ["margin", "net", "gain", "earnings", "income"]) ]

/-- The TITLE_CANDIDATES set of the heuristic route. -/
def TITLE_CANDS : List String :=
  ["title", "name", "movie", "film", "song", "book", "product", "item", "show"]

/-- The unique field names over all rows in first-seen order, the Set
accumulation loop of buildSchema. -/
def collectFields (records : List Row) : List String :=
  records.foldl
    (fun acc rec => (keysOf rec).foldl (fun a k => if k ∈ a then a else a ++ [k]) acc) []

/-- The nonempty trimmed values of one field over all rows, the flatMap at
the head of the per-field loop of buildSchema. -/
def fieldVals (records : List Row) (f : String) : List String :=
  records.filterMap (fun r =>
    match lookupVal r f with
    | some v => if jsTrim v == "" then none else some (jsTrim v)
    | none => none)

/-- One value counted as numeric by buildSchema: parseFloat does not give NaN
and the Number conversion is finite. -/
def isNumLike (v : String) : Bool :=
  (parseFloat v).isSome && (toNumber v).isSome

/-- The strict numeric-majority test of buildSchema: more than sixty percent
of the nonempty values are numeric (numCount over count strictly above 0.6,
written over the naturals). -/
def isNumericField (records : List Row) (f : String) : Bool :=
  let vals := fieldVals records f
  !vals.isEmpty && decide (5 * (vals.filter isNumLike).length > 3 * vals.length)

/-- The categorical test of buildSchema: not numeric, and the distinct count
of lowercased values is at most fifty or below thirty percent of the values
(unique size over count strictly below 0.3, written over the naturals). -/
def isCategoricalField (records : List Row) (f : String) : Bool :=
  let vals := fieldVals records f
  let uniq := (vals.map jsLower).dedup.length
  !vals.isEmpty && !(decide (5 * (vals.filter isNumLike).length > 3 * vals.length))
    && (decide (uniq ≤ 50) || decide (10 * uniq < 3 * vals.length))

/-- Fold of the binary minimum, the spread Math.min call. -/
def listMin : List ℚ → ℚ
  | [] => 0
  | x :: xs => xs.foldl min x

/-- Fold of the binary maximum, the spread Math.max call. -/
def listMax : List ℚ → ℚ
  | [] => 0
  | x :: xs => xs.foldl max x

/-- Adds one observation of a value to a frequency association list, in
first-seen insertion order. -/
def bumpFreq : List (String × Nat) → String → List (String × Nat)
  | [], v => [(v, 1)]
  | p :: rest, v => if p.1 == v then (p.1, p.2 + 1) :: rest else p :: bumpFreq rest v

/-- The topValues computation for one categorical field: frequency table,
stable sort by descending count, first twenty values. -/
def topValuesFor (vals : List String) : List String :=
  ((sortDescBy Prod.snd (vals.foldl bumpFreq [])).take 20).map Prod.fst

/-- First-match association lookup into the alias map. -/
def aliasLookup (m : List (String × String)) (k : String) : Option String :=
  (m.find? (fun p => p.1 == k)).map Prod.snd

/-- Store a binding, overwriting the first existing binding of the key. -/
def aliasSet : List (String × String) → String → String → List (String × String)
  | [], k, v => [(k, v)]
  | p :: rest, k, v => if p.1 == k then (k, v) :: rest else p :: aliasSet rest k v

/-- The addAlias helper of buildSchema: lowercase and trim the key and skip
it when empty. -/
def aliasAdd (m : List (String × String)) (a t : String) : List (String × String) :=
  let key := jsTrim (jsLower a)
  if key == "" then m else aliasSet m key t

/-- The per-field alias additions of buildSchema: the field itself, its
underscore/whitespace-stripped and space-collapsed variants, and the
singular of a plural. -/
def fieldAliasStep (m : List (String × String)) (f : String) : List (String × String) :=
  let m1 := aliasAdd m f f
  let m2 := aliasAdd m1 (stripWsU f) f
  let m3 := aliasAdd m2 (collapseWsU f) f
  if f.toList.getLast? == some 's' then aliasAdd m3 (String.mk f.toList.dropLast) f else m3

/-- The actual field a synonym group of buildSchema lands on: the first
field containing the canonical name, else the first field containing one of
the synonyms. -/
def synonymActual (allFields : List String) (p : String × List String) : Option String :=
  match allFields.find? (fun f => jsIncludes f p.1) with
  | some f => some f
  | none => allFields.find? (fun f => p.2.any (fun s => jsIncludes f s))

/-- One synonym group of buildSchema mapped onto an actual field, when a
field contains the canonical name or one of its synonyms. -/
def synonymStep (allFields : List String) (m : List (String × String)) (p : String × List String) : List (String × String) :=
  match synonymActual allFields p with
  | none => m
  | some act =>
    let m1 := aliasAdd m p.1 act
    p.2.foldl (fun m s => aliasAdd (aliasAdd m s act) (stripWsU s) act) m1

/-- The alias table of buildSchema: per-field aliases then synonym groups. -/
def buildAliases (allFields : List String) : List (String × String) :=
  FIELD_SYNONYMS.foldl (synonymStep allFields) (allFields.foldl fieldAliasStep [])

/-- buildSchema of the heuristic route: scans all rows once and classifies
every column, computing ranges for numeric columns, frequency-ranked top
values for categorical columns, the title field and the alias table. -/
def buildSchema (records : List Row) : DatasetSchema :=
  if records.isEmpty then
    { allFields := [], numericFields := [], categoricalFields := [],
      titleField := none, aliases := [], ranges := [], topValues := [] }
  else
    let allFields := collectFields records
    let numericFields := allFields.filter (isNumericField records)
    let categoricalFields := allFields.filter (isCategoricalField records)
    let ranges := numericFields.filterMap (fun f =>
      let nums := (fieldVals records f).filterMap toNumber
      if nums.isEmpty then none else some (f, (listMin nums, listMax nums)))
    let topValues := categoricalFields.map (fun f => (f, topValuesFor (fieldVals records f)))
    { allFields := allFields,
      numericFields := numericFields,
      categoricalFields := categoricalFields,
      titleField := allFields.find? (fun f => TITLE_CANDS.contains f),
      aliases := buildAliases allFields,
      ranges := ranges,
      topValues := topValues }

-- ── Field resolution ───────────────────────────────────────────────────────

/-- The truthiness-guarded alias read of resolveField: an alias bound to an
empty string counts as absent. -/
def aliasGet (m : List (String × String)) (k : String) : Option String :=
  match aliasLookup m k with
  | some v => if v == "" then none else some v
  | none => none

/-- The fuzzy containment loop of resolveField: the token inside a field
name needs a token of length at least four, a field name inside the token
needs a field name of length at least four. -/
def fuzzyFind (fields : List String) (t : String) : Option String :=
  match fields with
  | [] => none
  | f :: rest =>
    if t.length ≥ 4 && jsIncludes f t then some f
    else if f.length ≥ 4 && jsIncludes t f then some f
    else fuzzyFind rest t

/-- resolveField of the heuristic route: exact alias lookup, alias lookup of
the underscore/whitespace-stripped token, then fuzzy containment. -/
def resolveField (target : String) (schema : DatasetSchema) : Option String :=
  let t := jsTrim (jsLower target)
  if t == "" then none
  else match aliasGet schema.aliases t with
  | some v => some v
  | none =>
    match aliasGet schema.aliases (stripWsU t) with
    | some v => some v
    | none => fuzzyFind schema.allFields t

/-- The fixed preference order of defaultRankField. -/
def PREFERRED : List String :=
  ["rating", "score", "imdb", "votes", "boxoffice", "revenue"]

/-- Walks the preference list, keeping a resolution only when it lands on a
numeric field. -/
def defaultRankFieldGo (schema : DatasetSchema) : List String → String
  | [] => schema.numericFields.headD "rating"
  | p :: rest =>
    match resolveField p schema with
    | some r => if schema.numericFields.contains r then r else defaultRankFieldGo schema rest
    | none => defaultRankFieldGo schema rest

/-- defaultRankField of the heuristic route. -/
def defaultRankField (schema : DatasetSchema) : String :=
  defaultRankFieldGo schema PREFERRED

/-- findField of the heuristic route (the schema-aware form every executor
uses): resolve the target, read it when truthy in the row, else fuzzily scan
the row's own keys. -/
def findField (rec : Row) (target : String) (schema : DatasetSchema) : Option String :=
  let t := (resolveField target schema).getD (jsLower target)
  if truthyAt rec t then some t
  else (keysOf rec).find? (fun key => jsIncludes key t || jsIncludes t key)

/-- findField of the tool-calling route variant: no schema, no alias pass. -/
def findField2 (rec : Row) (target : String) : Option String :=
  let t := jsTrim (jsLower target)
  if truthyAt rec t then some t
  else (keysOf rec).find? (fun key => jsIncludes key t || jsIncludes t key)

-- ── Top-N executor ─────────────────────────────────────────────────────────

/-- The parsed sort-field value of a row, as the Top-N comparator reads it;
rows that do not qualify contribute zero (they never reach the sort). -/
def rankVal (schema : DatasetSchema) (field : String) (rec : Row) : ℚ :=
  match findField rec field schema with
  | some k => (parseFloat (getVal rec k)).getD 0
  | none => 0

/-- The rankable test of the Top-N executor: the sort field resolves in the
row and its value parses as a number. -/
def isRankable (schema : DatasetSchema) (field : String) (rec : Row) : Bool :=
  match findField rec field schema with
  | some k => (parseFloat (getVal rec k)).isSome
  | none => false

/-- The qualifying rows of the Top-N executor. -/
def topNRankable (records : List Row) (schema : DatasetSchema) (field : String) : List Row :=
  records.filter (isRankable schema field)

/-- The compound category-filter test of the Top-N executor: the category
field resolves in the row and its trimmed value matches case-insensitively. -/
def matchesCategory (schema : DatasetSchema) (catField catValue : String) (rec : Row) : Bool :=
  match findField rec catField schema with
  | some k => jsLower (jsTrim (getVal rec k)) == jsLower catValue
  | none => false

/-- The row pool the Top-N executor ranks: the rankable rows, narrowed by
the category filter only when that narrowing leaves at least one row. -/
def topNPool (records : List Row) (schema : DatasetSchema) (field : String)
    (filt : Option (String × String)) : List Row :=
  let rankable := topNRankable records schema field
  match filt with
  | some (cf, cv) =>
    let filtered := rankable.filter (matchesCategory schema cf cv)
    if filtered.isEmpty then rankable else filtered
  | none => rankable

/-- The sorted-and-truncated row list of the Top-N executor. -/
def topNRecords (records : List Row) (schema : DatasetSchema) (n : Nat) (field : String)
    (desc : Bool) (filt : Option (String × String)) : List Row :=
  let pool := topNPool records schema field filt
  let sorted := if desc then sortDescBy (rankVal schema field) pool
                else sortAscBy (rankVal schema field) pool
  sorted.take n

/-- The Top-N executor outcome: either the no-qualifying-rows answer or the
ranked rows. -/
inductive TopNOutcome where
  | noRows : TopNOutcome
  | ranked : List Row → TopNOutcome
deriving DecidableEq

/-- The Top-N executor of the heuristic route, on a resolved intent. -/
def execTopN (records : List Row) (schema : DatasetSchema) (n : Nat) (field : String)
    (desc : Bool) (filt : Option (String × String)) : TopNOutcome :=
  let pool := topNPool records schema field filt
  if pool.isEmpty then .noRows
  else .ranked (topNRecords records schema n field desc filt)

-- ── Group-by executor (sum aggregation) ────────────────────────────────────

/-- groups[gVal].push(num): append the observation to the first bucket of
the group value, or open a new bucket at the end. -/
def pushGroup : List (String × List ℚ) → String → ℚ → List (String × List ℚ)
  | [], g, q => [(g, [q])]
  | p :: rest, g, q =>
    if p.1 == g then (p.1, p.2 ++ [q]) :: rest else p :: pushGroup rest g q

/-- One loop iteration of the group-by executor's metric branch, with the
row-key finder abstracted so that the heuristic route (schema-aware
findField) and the tool-calling route (plain findField) share it. -/
def groupStepWith (find : Row → String → Option String) (gf mf : String)
    (m : List (String × List ℚ)) (rec : Row) : List (String × List ℚ) :=
  match find rec gf with
  | none => m
  | some gk =>
    if jsTrim (getVal rec gk) == "" then m
    else match find rec mf with
      | none => m
      | some mk =>
        match parseFloat (getVal rec mk) with
        | none => m
        | some q => pushGroup m (jsTrim (getVal rec gk)) q

/-- The grouped observations of the group-by executor. -/
def collectGroupsWith (find : Row → String → Option String) (gf mf : String)
    (records : List Row) : List (String × List ℚ) :=
  records.foldl (groupStepWith find gf mf) []

/-- A row the group-by executor counts: group key found with a nonempty
value and a metric value that parses as a number. -/
def groupQualifiesWith (find : Row → String → Option String) (gf mf : String) (rec : Row) : Bool :=
  match find rec gf with
  | none => false
  | some gk =>
    if jsTrim (getVal rec gk) == "" then false
    else match find rec mf with
      | none => false
      | some mk => (parseFloat (getVal rec mk)).isSome

/-- The parsed metric value of a row, as the group-by executor reads it. -/
def groupMetricValWith (find : Row → String → Option String) (mf : String) (rec : Row) : ℚ :=
  match find rec mf with
  | some mk => (parseFloat (getVal rec mk)).getD 0
  | none => 0

/-- The per-group sums of the heuristic route's group-by executor with
agg_type sum, sorted descending by score. -/
def groupSumResults (records : List Row) (schema : DatasetSchema) (gf mf : String) :
    List (String × ℚ) :=
  sortDescBy Prod.snd
    ((collectGroupsWith (fun rec t => findField rec t schema) gf mf records).map
      (fun p => (p.1, p.2.sum)))

/-- The per-group sums of the tool-calling route's execGroupBy with agg_type
sum, sorted descending by score. -/
def groupSumResultsTool (records : List Row) (gf mf : String) : List (String × ℚ) :=
  sortDescBy Prod.snd
    ((collectGroupsWith findField2 gf mf records).map (fun p => (p.1, p.2.sum)))

-- ── Chart payload types ────────────────────────────────────────────────────

/-- The chart type union of the heuristic route's ChartData interface. -/
def routeChartTypeUnion : List String := ["bar", "line"]

/-- The chart type union of the tool-calling route's ChartData interface. -/
def toolChartTypeUnion : List String := ["bar", "line", "pie", "scatter"]

/-- The chart type of the heuristic route's group-by payload: always bar. -/
def groupByChartTypeRoute : String := "bar"

/-- The chart type of the tool-calling route's group-by payload: pie with at
most eight groups, else bar. -/
def groupByChartTypeTool (results : List (String × ℚ)) : String :=
  if results.length ≤ 8 then "pie" else "bar"

/-- The chart type of the heuristic route's Top-N payload. -/
def topNChartType : String := "bar"

/-- The chart type of the heuristic route's outlier payload. -/
def outlierChartType : String := "bar"

/-- The chart type of the heuristic route's trend payload. -/
def trendChartType : String := "line"

-- ── Outlier executor ───────────────────────────────────────────────────────

/-- The rows of the outlier executor paired with their parsed values of the
default rank field. -/
def outlierRecVals (records : List Row) (schema : DatasetSchema) : List (Row × ℚ) :=
  records.filterMap (fun rec =>
    match findField rec (defaultRankField schema) schema with
    | some k =>
      match parseFloat (getVal rec k) with
      | some q => some (rec, q)
      | none => none
    | none => none)

/-- The IQR fences of the outlier executor: Q1 and Q3 at the floors of a
quarter and three quarters of the count into the ascending sort, one and a
half interquartile ranges beyond. -/
def iqrFences (vals : List ℚ) : ℚ × ℚ :=
  let sorted := sortAscBy id vals
  let q1 := sorted.getD (vals.length / 4) 0
  let q3 := sorted.getD (3 * vals.length / 4) 0
  let iqr := q3 - q1
  (q1 - 3 / 2 * iqr, q3 + 3 / 2 * iqr)

/-- The outlier executor outcome: the insufficient-data answer below four
values, else the flagged rows. -/
inductive OutlierOutcome where
  | insufficient : OutlierOutcome
  | flagged : List (Row × ℚ) → OutlierOutcome
deriving DecidableEq

/-- The outlier executor of the heuristic route. -/
def execOutliers (records : List Row) (schema : DatasetSchema) : OutlierOutcome :=
  let recVals := outlierRecVals records schema
  if recVals.length < 4 then .insufficient
  else
    let fences := iqrFences (recVals.map Prod.snd)
    .flagged (recVals.filter (fun rv => rv.2 < fences.1 || fences.2 < rv.2))

-- ── Threshold-filter detector (post-regex core) ────────────────────────────

/-- The intent record that detectFilter returns. -/
structure FilterIntent where
  isFilter : Bool
  field : String
  op : String
  value : ℚ
deriving DecidableEq

/-- The comparison words that detectFilter maps to the less-than operator. -/
def UNDER_WORDS : List String :=
  ["under", "below", "less than", "younger than", "cheaper than"]

/-- detectFilter of the heuristic route after its regex has produced the
field word, the comparison word and the number: the field is resolved
against the schema but falls back to the raw user token when resolution
fails. On the message of "foo over 5" the regex yields the triple of "foo",
"over" and 5. -/
def detectFilterCore (fieldWord opWord : String) (value : ℚ) (schema : DatasetSchema) :
    FilterIntent :=
  let resolved := (resolveField fieldWord schema).getD fieldWord
  let op := if UNDER_WORDS.any (fun w => jsIncludes opWord w) then "<" else ">"
  { isFilter := true, field := resolved, op := op, value := value }

-- ── Concrete datasets for the witnesses and counterexamples ────────────────

/-- A one-column row. -/
def exRow (v : String) : Row := [("x", v)]

/-- Four identical numeric values. -/
def ex4 : List Row := [exRow "5", exRow "5", exRow "5", exRow "5"]

/-- The dataset of one, two, three, four and one hundred. -/
def ex5 : List Row := [exRow "1", exRow "2", exRow "3", exRow "4", exRow "100"]

/-- Two rows with a box_office column and a rating column. -/
def exB : List Row :=
  [[("box_office", "100"), ("rating", "8")], [("box_office", "200"), ("rating", "7")]]

/-- A department/sales row. -/
def gRow (d s : String) : Row := [("dept", d), ("sales", s)]

/-- Three rows over two departments. -/
def exG : List Row := [gRow "a" "10", gRow "b" "20", gRow "a" "5"]

/-- A five-value column where exactly three of five values are numeric. -/
def exC6 : List Row := [exRow "1", exRow "2", exRow "3", exRow "a", exRow "b"]

-- ── Basic lemmas about the string and sorting helpers ──────────────────────

theorem seqStarts_length : ∀ {s t : List Char}, seqStarts s t = true → t.length ≤ s.length := by
  intro s
  induction s with
  | nil =>
    intro t h
    cases t with
    | nil => exact Nat.le_refl 0
    | cons b bs => simp [seqStarts] at h
  | cons a as ih =>
    intro t h
    cases t with
    | nil => exact Nat.zero_le _
    | cons b bs =>
      simp only [seqStarts, Bool.and_eq_true] at h
      simpa using Nat.succ_le_succ (ih h.2)

theorem seqContains_length : ∀ {s t : List Char}, seqContains s t = true → t.length ≤ s.length := by
  intro s
  induction s with
  | nil =>
    intro t h
    exact seqStarts_length h
  | cons a as ih =>
    intro t h
    simp only [seqContains, Bool.or_eq_true] at h
    rcases h with h | h
    · exact seqStarts_length h
    · exact Nat.le_trans (ih h) (by simp)

theorem jsIncludes_length {s sub : String} (h : jsIncludes s sub = true) :
    sub.length ≤ s.length :=
  seqContains_length h

theorem insertDescBy_perm {α β : Type} [LinearOrder β] (key : α → β) (x : α) :
    ∀ l : List α, (insertDescBy key x l).Perm (x :: l) := by
  intro l
  induction l with
  | nil => simp [insertDescBy]
  | cons y ys ih =>
    by_cases h : key y ≤ key x
    · simp [insertDescBy, h]
    · simp only [insertDescBy, if_neg h]
      exact (ih.cons y).trans (List.Perm.swap x y ys)

theorem sortDescBy_perm {α β : Type} [LinearOrder β] (key : α → β) :
    ∀ l : List α, (sortDescBy key l).Perm l := by
  intro l
  induction l with
  | nil => simp [sortDescBy]
  | cons x xs ih =>
    exact (insertDescBy_perm key x (sortDescBy key xs)).trans (ih.cons x)

theorem insertDescBy_pairwise {α β : Type} [LinearOrder β] (key : α → β) (x : α) :
    ∀ l : List α, l.Pairwise (fun a b => key b ≤ key a) →
      (insertDescBy key x l).Pairwise (fun a b => key b ≤ key a) := by
  intro l
  induction l with
  | nil => intro _; simp [insertDescBy]
  | cons y ys ih =>
    intro h
    rcases List.pairwise_cons.mp h with ⟨hy, hys⟩
    by_cases hc : key y ≤ key x
    · simp only [insertDescBy, if_pos hc]
      refine List.pairwise_cons.mpr ⟨?_, h⟩
      intro b hb
      rcases List.mem_cons.mp hb with rfl | hb2
      · exact hc
      · exact le_trans (hy b hb2) hc
    · simp only [insertDescBy, if_neg hc]
      refine List.pairwise_cons.mpr ⟨?_, ih hys⟩
      intro b hb
      rcases List.mem_cons.mp ((insertDescBy_perm key x ys).mem_iff.mp hb) with rfl | hb2
      · exact le_of_lt (not_le.mp hc)
      · exact hy b hb2

theorem sortDescBy_pairwise {α β : Type} [LinearOrder β] (key : α → β) :
    ∀ l : List α, (sortDescBy key l).Pairwise (fun a b => key b ≤ key a) := by
  intro l
  induction l with
  | nil => simp [sortDescBy]
  | cons x xs ih => exact insertDescBy_pairwise key x _ ih

theorem insertAscBy_perm {α β : Type} [LinearOrder β] (key : α → β) (x : α) :
    ∀ l : List α, (insertAscBy key x l).Perm (x :: l) := by
  intro l
  induction l with
  | nil => simp [insertAscBy]
  | cons y ys ih =>
    by_cases h : key x ≤ key y
    · simp [insertAscBy, h]
    · simp only [insertAscBy, if_neg h]
      exact (ih.cons y).trans (List.Perm.swap x y ys)

theorem sortAscBy_perm {α β : Type} [LinearOrder β] (key : α → β) :
    ∀ l : List α, (sortAscBy key l).Perm l := by
  intro l
  induction l with
  | nil => simp [sortAscBy]
  | cons x xs ih =>
    exact (insertAscBy_perm key x (sortAscBy key xs)).trans (ih.cons x)

theorem insertAscBy_pairwise {α β : Type} [LinearOrder β] (key : α → β) (x : α) :
    ∀ l : List α, l.Pairwise (fun a b => key a ≤ key b) →
      (insertAscBy key x l).Pairwise (fun a b => key a ≤ key b) := by
  intro l
  induction l with
  | nil => intro _; simp [insertAscBy]
  | cons y ys ih =>
    intro h
    rcases List.pairwise_cons.mp h with ⟨hy, hys⟩
    by_cases hc : key x ≤ key y
    · simp only [insertAscBy, if_pos hc]
      refine List.pairwise_cons.mpr ⟨?_, h⟩
      intro b hb
      rcases List.mem_cons.mp hb with rfl | hb2
      · exact hc
      · exact le_trans hc (hy b hb2)
    · simp only [insertAscBy, if_neg hc]
      refine List.pairwise_cons.mpr ⟨?_, ih hys⟩
      intro b hb
      rcases List.mem_cons.mp ((insertAscBy_perm key x ys).mem_iff.mp hb) with rfl | hb2
      · exact le_of_lt (not_le.mp hc)
      · exact hy b hb2

theorem sortAscBy_pairwise {α β : Type} [LinearOrder β] (key : α → β) :
    ∀ l : List α, (sortAscBy key l).Pairwise (fun a b => key a ≤ key b) := by
  intro l
  induction l with
  | nil => simp [sortAscBy]
  | cons x xs ih => exact insertAscBy_pairwise key x _ ih

-- ── Lemmas for the Top-N executor ──────────────────────────────────────────

theorem topNPool_length_le (records : List Row) (schema : DatasetSchema) (field : String)
    (filt : Option (String × String)) :
    (topNPool records schema field filt).length ≤ (topNRankable records schema field).length := by
  rcases filt with _ | ⟨cf, cv⟩
  · exact Nat.le_refl _
  · simp only [topNPool]
    split
    · exact Nat.le_refl _
    · exact List.length_filter_le _ _

theorem topNRecords_length_le (records : List Row) (schema : DatasetSchema) (n : Nat)
    (field : String) (desc : Bool) (filt : Option (String × String)) :
    (topNRecords records schema n field desc filt).length ≤
      min n (topNRankable records schema field).length := by
  have hpool := topNPool_length_le records schema field filt
  unfold topNRecords
  cases desc with
  | false =>
    simp only [Bool.false_eq_true, if_false, List.length_take]
    have hlen := (sortAscBy_perm (rankVal schema field) (topNPool records schema field filt)).length_eq
    rw [hlen]
    exact min_le_min (Nat.le_refl n) hpool
  | true =>
    simp only [if_true, List.length_take]
    have hlen := (sortDescBy_perm (rankVal schema field) (topNPool records schema field filt)).length_eq
    rw [hlen]
    exact min_le_min (Nat.le_refl n) hpool

theorem topNRecords_pairwise_desc (records : List Row) (schema : DatasetSchema) (n : Nat)
    (field : String) (filt : Option (String × String)) :
    (topNRecords records schema n field true filt).Pairwise
      (fun a b => rankVal schema field b ≤ rankVal schema field a) := by
  unfold topNRecords
  simp only [if_true]
  exact List.Pairwise.sublist (List.take_sublist n _)
    (sortDescBy_pairwise (rankVal schema field) _)

theorem topNRecords_pairwise_asc (records : List Row) (schema : DatasetSchema) (n : Nat)
    (field : String) (filt : Option (String × String)) :
    (topNRecords records schema n field false filt).Pairwise
      (fun a b => rankVal schema field a ≤ rankVal schema field b) := by
  unfold topNRecords
  simp only [Bool.false_eq_true, if_false]
  exact List.Pairwise.sublist (List.take_sublist n _)
    (sortAscBy_pairwise (rankVal schema field) _)

/-- C1: for every resolved Top-N intent with bound n over any row set, the
executor's ranked output has at most min of n and the number of qualifying
rows (the rows whose resolved sort field parses as a number), and it is
ordered non-increasingly by the parsed sort-field value for descending order
and non-decreasingly for ascending order. -/
theorem topN_length_and_order_c1 (records : List Row) (schema : DatasetSchema) (n : Nat)
    (field : String) (filt : Option (String × String)) :
    (∀ desc : Bool, (topNRecords records schema n field desc filt).length ≤
        min n (topNRankable records schema field).length) ∧
    (topNRecords records schema n field true filt).Pairwise
      (fun a b => rankVal schema field b ≤ rankVal schema field a) ∧
    (topNRecords records schema n field false filt).Pairwise
      (fun a b => rankVal schema field a ≤ rankVal schema field b) ∧
    (∀ desc : Bool, ∀ rows : List Row,
      execTopN records schema n field desc filt = TopNOutcome.ranked rows →
      rows = topNRecords records schema n field desc filt) :=
  ⟨fun desc => topNRecords_length_le records schema n field desc filt,
   topNRecords_pairwise_desc records schema n field filt,
   topNRecords_pairwise_asc records schema n field filt,
   by
     intro desc rows h
     unfold execTopN at h
     by_cases hp : (topNPool records schema field filt).isEmpty
     · simp [hp] at h
     · simp [hp] at h
       exact h.symm⟩

/-- C1 witness: on the concrete two-department dataset ranked descending by
sales the executor returns exactly the two rows in non-increasing sales
order, within the length bound. -/
theorem topN_length_and_order_c1_witness :
    [[("dept", "b"), ("sales", "20")], [("dept", "a"), ("sales", "10")]] =
      topNRecords exG (buildSchema exG) 2 "sales" true none ∧
    (topNRecords exG (buildSchema exG) 2 "sales" true none).length ≤
      min 2 (topNRankable exG (buildSchema exG) "sales").length :=
  ⟨(topN_length_and_order_c1 exG (buildSchema exG) 2 "sales" none).2.2.2 true
     [[("dept", "b"), ("sales", "20")], [("dept", "a"), ("sales", "10")]] (by decide),
   (topN_length_and_order_c1 exG (buildSchema exG) 2 "sales" none).1 true⟩

-- ── Outlier executor: C2 ───────────────────────────────────────────────────

/-- C2: the outlier executor sorts the numeric values of the target field,
takes Q1 and Q3 at the integer indices of a quarter and three quarters of
the count with no interpolation, and flags exactly the rows whose value lies
strictly outside the fences of Q1 minus one and a half IQR and Q3 plus one
and a half IQR; four identical values produce no outlier, and on the values
of one, two, three, four and one hundred the value one hundred is flagged. -/
theorem outliers_iqr_c2 :
    (∀ vals : List ℚ, (sortAscBy id vals).Perm vals ∧
      (sortAscBy id vals).Pairwise (fun a b => a ≤ b)) ∧
    (∀ (records : List Row) (schema : DatasetSchema),
      4 ≤ (outlierRecVals records schema).length →
      execOutliers records schema = OutlierOutcome.flagged
        ((outlierRecVals records schema).filter (fun rv =>
          rv.2 < (iqrFences ((outlierRecVals records schema).map Prod.snd)).1 ||
          (iqrFences ((outlierRecVals records schema).map Prod.snd)).2 < rv.2))) ∧
    execOutliers ex4 (buildSchema ex4) = OutlierOutcome.flagged [] ∧
    execOutliers ex5 (buildSchema ex5) = OutlierOutcome.flagged [(exRow "100", 100)] := by
  refine ⟨fun vals => ⟨sortAscBy_perm id vals, sortAscBy_pairwise id vals⟩,
    ?_, by decide, by decide⟩
  intro records schema h
  unfold execOutliers
  rw [if_neg (Nat.not_lt.mpr h)]

/-- C2 witness: the five-value dataset clears the four-value threshold and
the executor output is exactly the strict out-of-fence filter. -/
theorem outliers_iqr_c2_witness :
    4 ≤ (outlierRecVals ex5 (buildSchema ex5)).length ∧
    execOutliers ex5 (buildSchema ex5) = OutlierOutcome.flagged
      ((outlierRecVals ex5 (buildSchema ex5)).filter (fun rv =>
        rv.2 < (iqrFences ((outlierRecVals ex5 (buildSchema ex5)).map Prod.snd)).1 ||
        (iqrFences ((outlierRecVals ex5 (buildSchema ex5)).map Prod.snd)).2 < rv.2)) :=
  ⟨by decide, outliers_iqr_c2.2.1 ex5 (buildSchema ex5) (by decide)⟩

-- ── Group-by executor: C3 ──────────────────────────────────────────────────

/-- The total of all observations stored in the groups table. -/
def totalOfGroups (m : List (String × List ℚ)) : ℚ :=
  (m.map (fun p => p.2.sum)).sum

theorem totalOfGroups_pushGroup (m : List (String × List ℚ)) (g : String) (q : ℚ) :
    totalOfGroups (pushGroup m g q) = totalOfGroups m + q := by
  induction m with
  | nil => simp [pushGroup, totalOfGroups]
  | cons p rest ih =>
    by_cases h : (p.1 == g) = true
    · simp only [pushGroup, if_pos h, totalOfGroups, List.map_cons, List.sum_cons,
        List.sum_append, List.sum_cons, List.sum_nil]
      ring
    · simp only [pushGroup, if_neg h, totalOfGroups, List.map_cons, List.sum_cons] at ih ⊢
      rw [ih]
      ring

theorem totalOfGroups_groupStep (find : Row → String → Option String) (gf mf : String)
    (m : List (String × List ℚ)) (rec : Row) :
    totalOfGroups (groupStepWith find gf mf m rec) =
      totalOfGroups m +
        (if groupQualifiesWith find gf mf rec then groupMetricValWith find mf rec else 0) := by
  unfold groupStepWith groupQualifiesWith groupMetricValWith
  cases hg : find rec gf with
  | none => simp
  | some gk =>
    cases hv : jsTrim (getVal rec gk) == "" with
    | true => simp [hv]
    | false =>
      simp only [hv, Bool.false_eq_true, if_false]
      cases hm : find rec mf with
      | none => simp
      | some mk =>
        cases hq : parseFloat (getVal rec mk) with
        | none => simp [hq]
        | some q => simp [hq, totalOfGroups_pushGroup]

theorem totalOfGroups_foldl (find : Row → String → Option String) (gf mf : String) :
    ∀ (l : List Row) (m : List (String × List ℚ)),
      totalOfGroups (l.foldl (groupStepWith find gf mf) m) =
        totalOfGroups m +
          ((l.filter (groupQualifiesWith find gf mf)).map (groupMetricValWith find mf)).sum := by
  intro l
  induction l with
  | nil => intro m; simp
  | cons r rest ih =>
    intro m
    rw [List.foldl_cons, ih, totalOfGroups_groupStep, List.filter_cons]
    by_cases h : groupQualifiesWith find gf mf r = true
    · rw [if_pos h, if_pos h, List.map_cons, List.sum_cons]
      ring
    · rw [if_neg h, if_neg h]
      ring

/-- C3: for the group-by executor with aggregation type sum, the sum of the
per-group sums over all produced groups equals the sum of the parsed metric
values over all qualifying rows, the rows with a found group key holding a
nonempty value and a metric value that parses as a number. -/
theorem groupBy_partition_sum_c3 (records : List Row) (schema : DatasetSchema) (gf mf : String) :
    ((groupSumResults records schema gf mf).map Prod.snd).sum =
      ((records.filter (groupQualifiesWith (fun rec t => findField rec t schema) gf mf)).map
        (groupMetricValWith (fun rec t => findField rec t schema) mf)).sum := by
  unfold groupSumResults
  have hperm := (sortDescBy_perm (Prod.snd (α := String) (β := ℚ))
    ((collectGroupsWith (fun rec t => findField rec t schema) gf mf records).map
      (fun p => (p.1, p.2.sum)))).map Prod.snd
  rw [hperm.sum_eq, List.map_map]
  have htot := totalOfGroups_foldl (fun rec t => findField rec t schema) gf mf records []
  unfold collectGroupsWith
  simpa [totalOfGroups, Function.comp] using htot

-- ── Schema determinism and first-seen order: C4 ────────────────────────────

/-- The concrete shape of buildSchema on a nonempty row set. -/
theorem buildSchema_eq (records : List Row) (h : records.isEmpty = false) :
    buildSchema records =
      { allFields := collectFields records,
        numericFields := (collectFields records).filter (isNumericField records),
        categoricalFields := (collectFields records).filter (isCategoricalField records),
        titleField := (collectFields records).find? (fun f => TITLE_CANDS.contains f),
        aliases := buildAliases (collectFields records),
        ranges := ((collectFields records).filter (isNumericField records)).filterMap (fun f =>
          let nums := (fieldVals records f).filterMap toNumber
          if nums.isEmpty then none else some (f, (listMin nums, listMax nums))),
        topValues := ((collectFields records).filter (isCategoricalField records)).map
          (fun f => (f, topValuesFor (fieldVals records f))) } := by
  unfold buildSchema
  rw [h]
  rfl

/-- First-seen order of column names, written independently of the Set loop
inside buildSchema as one fold over the concatenation of all key lists. -/
def firstSeenOrder (records : List Row) : List String :=
  ((records.map keysOf).flatten).foldl (fun acc k => if k ∈ acc then acc else acc ++ [k]) []

theorem collectFields_eq_firstSeenOrder (records : List Row) :
    collectFields records = firstSeenOrder records := by
  unfold collectFields firstSeenOrder
  rw [List.foldl_flatten, List.foldl_map]

/-- C4: buildSchema is deterministic — two calls on identical row sets give
identical schemas, field order, classifications and ranges included — and
the field order is the first-seen order of column names in the data. -/
theorem buildSchema_deterministic_c4 :
    (∀ r1 r2 : List Row, r1 = r2 → buildSchema r1 = buildSchema r2) ∧
    (∀ records : List Row, (buildSchema records).allFields = firstSeenOrder records) := by
  refine ⟨fun r1 r2 h => by rw [h], fun records => ?_⟩
  cases h : records.isEmpty with
  | true =>
    rw [List.isEmpty_iff.mp h]
    rfl
  | false =>
    rw [buildSchema_eq records h]
    exact collectFields_eq_firstSeenOrder records

/-- C4 witness: determinism applied at the concrete two-department dataset. -/
theorem buildSchema_deterministic_c4_witness : buildSchema exG = buildSchema exG :=
  buildSchema_deterministic_c4.1 exG exG rfl

-- ── Schema invariants: C5 ──────────────────────────────────────────────────

theorem aliasLookup_cons (p : String × String) (rest : List (String × String)) (k : String) :
    aliasLookup (p :: rest) k = if p.1 == k then some p.2 else aliasLookup rest k := by
  by_cases h : (p.1 == k) = true
  · simp [aliasLookup, List.find?_cons_of_pos _ h, h]
  · simp [aliasLookup, List.find?_cons_of_neg _ h, h]

theorem aliasLookup_aliasSet (m : List (String × String)) (key t k : String) :
    aliasLookup (aliasSet m key t) k = if key == k then some t else aliasLookup m k := by
  induction m with
  | nil =>
    rw [aliasSet, aliasLookup_cons]
  | cons p rest ih =>
    rw [aliasSet]
    by_cases hp : (p.1 == key) = true
    · rw [if_pos hp, aliasLookup_cons]
      by_cases hk : (key == k) = true
      · rw [if_pos hk, if_pos hk]
      · rw [if_neg hk, if_neg hk, aliasLookup_cons]
        have hp' : p.1 = key := by simpa using hp
        have hk' : key ≠ k := by simpa using hk
        have hf : (p.1 == k) = false :=
          beq_eq_false_iff_ne.mpr (fun hc => hk' (hp'.symm.trans hc))
        rw [hf]
        simp
    · rw [if_neg hp, aliasLookup_cons, aliasLookup_cons, ih]
      by_cases hpk : (p.1 == k) = true
      · have hp' : p.1 ≠ key := by simpa using hp
        have hpk' : p.1 = k := by simpa using hpk
        have hkk : (key == k) = false :=
          beq_eq_false_iff_ne.mpr (fun hc => hp' (hpk'.trans hc.symm))
        rw [if_pos hpk, hkk]
        simp [hpk]
      · rw [if_neg hpk, if_neg hpk]

theorem aliasAdd_valsIn {S : List String} {m : List (String × String)}
    (hm : ∀ k v, aliasLookup m k = some v → v ∈ S) {t : String} (ht : t ∈ S) (a : String) :
    ∀ k v, aliasLookup (aliasAdd m a t) k = some v → v ∈ S := by
  intro k v h
  simp only [aliasAdd] at h
  by_cases he : (jsTrim (jsLower a) == "") = true
  · rw [if_pos he] at h
    exact hm k v h
  · rw [if_neg he, aliasLookup_aliasSet] at h
    by_cases hk : (jsTrim (jsLower a) == k) = true
    · rw [if_pos hk] at h
      cases h
      exact ht
    · rw [if_neg hk] at h
      exact hm k v h

theorem fieldAliasStep_valsIn {S : List String} {m : List (String × String)}
    (hm : ∀ k v, aliasLookup m k = some v → v ∈ S) {f : String} (hf : f ∈ S) :
    ∀ k v, aliasLookup (fieldAliasStep m f) k = some v → v ∈ S := by
  have h1 := aliasAdd_valsIn hm hf f
  have h2 := aliasAdd_valsIn h1 hf (stripWsU f)
  have h3 := aliasAdd_valsIn h2 hf (collapseWsU f)
  intro k v
  simp only [fieldAliasStep]
  split
  · exact aliasAdd_valsIn h3 hf (String.mk f.toList.dropLast) k v
  · exact h3 k v

theorem synonymActual_mem (A : List String) (p : String × List String) {act : String}
    (h : synonymActual A p = some act) : act ∈ A := by
  unfold synonymActual at h
  cases h1 : A.find? (fun f => jsIncludes f p.1) with
  | some f =>
    rw [h1] at h
    cases h
    exact List.mem_of_find?_eq_some h1
  | none =>
    rw [h1] at h
    exact List.mem_of_find?_eq_some h

theorem synFold_valsIn {A : List String} {act : String} (hact : act ∈ A) :
    ∀ (L : List String) (m : List (String × String)),
      (∀ k v, aliasLookup m k = some v → v ∈ A) →
      ∀ k v, aliasLookup
        (L.foldl (fun m s => aliasAdd (aliasAdd m s act) (stripWsU s) act) m) k = some v →
        v ∈ A := by
  intro L
  induction L with
  | nil => intro m hm; exact hm
  | cons s rest ih =>
    intro m hm
    exact ih _ (aliasAdd_valsIn (aliasAdd_valsIn hm hact s) hact (stripWsU s))

theorem synonymStep_valsIn {A : List String} {m : List (String × String)}
    (hm : ∀ k v, aliasLookup m k = some v → v ∈ A) (p : String × List String) :
    ∀ k v, aliasLookup (synonymStep A m p) k = some v → v ∈ A := by
  unfold synonymStep
  cases ha : synonymActual A p with
  | none => exact hm
  | some act =>
    have hact := synonymActual_mem A p ha
    exact synFold_valsIn hact p.2 _ (aliasAdd_valsIn hm hact p.1)

theorem synGroups_valsIn {A : List String} :
    ∀ (G : List (String × List String)) (m : List (String × String)),
      (∀ k v, aliasLookup m k = some v → v ∈ A) →
      ∀ k v, aliasLookup (G.foldl (synonymStep A) m) k = some v → v ∈ A := by
  intro G
  induction G with
  | nil => intro m hm; exact hm
  | cons p rest ih =>
    intro m hm
    exact ih _ (synonymStep_valsIn hm p)

theorem fieldFold_valsIn {A : List String} :
    ∀ (L : List String), (∀ f, f ∈ L → f ∈ A) →
      ∀ (m : List (String × String)), (∀ k v, aliasLookup m k = some v → v ∈ A) →
      ∀ k v, aliasLookup (L.foldl fieldAliasStep m) k = some v → v ∈ A := by
  intro L
  induction L with
  | nil => intro _ m hm; exact hm
  | cons f rest ih =>
    intro hL m hm
    exact ih (fun g hg => hL g (List.mem_cons_of_mem f hg)) _
      (fieldAliasStep_valsIn hm (hL f (List.mem_cons_self f rest)))

theorem buildAliases_valsIn (A : List String) :
    ∀ k v, aliasLookup (buildAliases A) k = some v → v ∈ A := by
  unfold buildAliases
  exact synGroups_valsIn FIELD_SYNONYMS _
    (fieldFold_valsIn A (fun f hf => hf) []
      (fun k v h => by simp [aliasLookup] at h))

/-- C5: for every row set the schema's numeric and categorical field lists
are disjoint, and every alias binding maps to a member of allFields. -/
theorem schema_invariants_c5 (records : List Row) :
    (∀ f, f ∈ (buildSchema records).numericFields →
      f ∉ (buildSchema records).categoricalFields) ∧
    (∀ k v, aliasLookup (buildSchema records).aliases k = some v →
      v ∈ (buildSchema records).allFields) := by
  cases h : records.isEmpty with
  | true =>
    rw [List.isEmpty_iff.mp h]
    constructor
    · intro f hf
      simp [buildSchema] at hf
    · intro k v hv
      simp [buildSchema, aliasLookup] at hv
  | false =>
    rw [buildSchema_eq records h]
    constructor
    · intro f hf hc
      rw [List.mem_filter] at hf hc
      have h1 := hf.2
      have h2 := hc.2
      simp only [isNumericField, Bool.and_eq_true] at h1
      simp only [isCategoricalField, Bool.and_eq_true, Bool.not_eq_true'] at h2
      have hcontra := h1.2.symm.trans h2.1.2
      simp at hcontra
    · exact buildAliases_valsIn (collectFields records)

/-- C5 witness: the invariants applied at the concrete dataset where sales
is numeric and the alias of dept binds to dept. -/
theorem schema_invariants_c5_witness :
    "sales" ∉ (buildSchema exG).categoricalFields ∧ "dept" ∈ (buildSchema exG).allFields :=
  ⟨(schema_invariants_c5 exG).1 "sales" (by decide),
   (schema_invariants_c5 exG).2 "dept" "dept" (by decide)⟩

-- ── Numeric classification threshold: C6 ───────────────────────────────────

theorem isEmpty_false_iff {α : Type} (l : List α) : l.isEmpty = false ↔ l ≠ [] := by
  cases l <;> simp

/-- C6 counterexample: a column whose nonempty values are numeric in exactly
sixty percent of cases — three of five — is not classified numeric, because
the source compares the fraction with strictly-greater-than 0.6. -/
theorem numeric_threshold_c6_counterexample :
    5 * ((fieldVals exC6 "x").filter isNumLike).length = 3 * (fieldVals exC6 "x").length ∧
    "x" ∈ (buildSchema exC6).allFields ∧
    "x" ∉ (buildSchema exC6).numericFields ∧
    "x" ∈ (buildSchema exC6).categoricalFields := by
  refine ⟨by decide, by decide, by decide, by decide⟩

/-- C6 amended: a field is classified numeric exactly when strictly more
than sixty percent of its nonempty values parse as finite numbers; a field
at exactly sixty percent is not numeric. -/
theorem numeric_threshold_c6_amended (records : List Row) (f : String) :
    f ∈ (buildSchema records).numericFields ↔
      (records ≠ [] ∧ f ∈ collectFields records ∧ fieldVals records f ≠ [] ∧
        5 * ((fieldVals records f).filter isNumLike).length > 3 * (fieldVals records f).length) := by
  cases h : records.isEmpty with
  | true =>
    rw [List.isEmpty_iff.mp h]
    simp [buildSchema]
  | false =>
    have hne : records ≠ [] := by
      intro hh
      rw [hh] at h
      simp at h
    rw [buildSchema_eq records h, List.mem_filter]
    simp only [isNumericField, Bool.and_eq_true, Bool.not_eq_true', decide_eq_true_eq,
      isEmpty_false_iff, hne, true_and, and_assoc]
    tauto

-- ── Field resolution: C7 ───────────────────────────────────────────────────

theorem fuzzyFind_short (t : String) (ht : t.length < 4) :
    ∀ fields : List String, fuzzyFind fields t = none := by
  intro fields
  induction fields with
  | nil => rfl
  | cons f rest ih =>
    unfold fuzzyFind
    have h1 : (decide (t.length ≥ 4) && jsIncludes f t) = false := by
      have hn : ¬ (t.length ≥ 4) := Nat.not_le.mpr ht
      simp [hn]
    have h2 : (decide (f.length ≥ 4) && jsIncludes t f) = false := by
      cases hj : jsIncludes t f with
      | false => simp
      | true =>
        have hlen : f.length ≤ t.length := jsIncludes_length hj
        have hn : ¬ (f.length ≥ 4) := Nat.not_le.mpr (lt_of_le_of_lt hlen ht)
        simp [hn]
    simp [h1, h2, ih]

theorem resolveField_short (schema : DatasetSchema) (target : String)
    (ht : (jsTrim (jsLower target)).length < 4)
    (h1 : aliasGet schema.aliases (jsTrim (jsLower target)) = none)
    (h2 : aliasGet schema.aliases (stripWsU (jsTrim (jsLower target))) = none) :
    resolveField target schema = none := by
  unfold resolveField
  cases he : (jsTrim (jsLower target) == "") with
  | true => simp [he]
  | false =>
    simp only [he, Bool.false_eq_true, if_false, h1, h2]
    exact fuzzyFind_short _ ht schema.allFields

/-- C7: the token of boxoffice resolves to the box_office column through the
whitespace/underscore-stripping alias, and a token shorter than four
characters that misses both alias passes never resolves through the fuzzy
containment step — the four-character minimum binds whichever side of the
containment is shorter. -/
theorem field_resolution_c7 :
    resolveField "boxoffice" (buildSchema exB) = some "box_office" ∧
    (∀ (schema : DatasetSchema) (target : String),
      (jsTrim (jsLower target)).length < 4 →
      aliasGet schema.aliases (jsTrim (jsLower target)) = none →
      aliasGet schema.aliases (stripWsU (jsTrim (jsLower target))) = none →
      resolveField target schema = none) :=
  ⟨by decide, fun schema target ht h1 h2 => resolveField_short schema target ht h1 h2⟩

/-- C7 witness: the token of in has length two, a field name of the concrete
schema contains it, and it still resolves to nothing. -/
theorem field_resolution_c7_witness :
    (jsTrim (jsLower "in")).length < 4 ∧ jsIncludes "rating" "in" = true ∧
    "rating" ∈ (buildSchema exB).allFields ∧
    resolveField "in" (buildSchema exB) = none :=
  ⟨by decide, by decide, by decide,
   field_resolution_c7.2 (buildSchema exB) "in" (by decide) (by decide) (by decide)⟩

-- ── Threshold-filter detector fallback: C8 ─────────────────────────────────

/-- C8: the threshold-filter detector does not decline on an unresolvable
field token — on the message of "foo over 5" against a dataset whose
columns are box_office and rating, resolution of foo fails, yet the
detector returns an intent whose field is the raw token foo. -/
theorem filter_detector_c8 :
    detectFilterCore "foo" "over" 5 (buildSchema exB) =
      { isFilter := true, field := "foo", op := ">", value := 5 } ∧
    resolveField "foo" (buildSchema exB) = none ∧
    "foo" ∉ (buildSchema exB).allFields := by
  refine ⟨by decide, by decide, by decide⟩

-- ── Chart payload types: C9 ────────────────────────────────────────────────

/-- C9 counterexample: a concrete group-by breakdown with two groups — at
most eight — still carries the bar chart type in the heuristic route, whose
chart type union does not even contain pie. -/
theorem groupBy_chart_c9_counterexample :
    (groupSumResults exG (buildSchema exG) "dept" "sales").length = 2 ∧
    (groupSumResults exG (buildSchema exG) "dept" "sales").length ≤ 8 ∧
    groupByChartTypeRoute ≠ "pie" ∧ "pie" ∉ routeChartTypeUnion := by
  refine ⟨by decide, by decide, by decide, by decide⟩

/-- C9 amended: the heuristic route's group-by chart type is always bar and
pie is outside its chart type union; the pie-when-at-most-eight-groups rule
holds in the tool-calling route variant's group-by executor; ranking and
outlier payloads are bar and trend payloads are line. -/
theorem groupBy_chart_c9_amended :
    (∀ (records : List Row) (gf mf : String),
      groupByChartTypeTool (groupSumResultsTool records gf mf) =
        (if (groupSumResultsTool records gf mf).length ≤ 8 then "pie" else "bar")) ∧
    (∀ results : List (String × ℚ),
      (groupByChartTypeTool results = "pie" ↔ results.length ≤ 8)) ∧
    groupByChartTypeRoute = "bar" ∧ "pie" ∉ routeChartTypeUnion ∧
    topNChartType = "bar" ∧ outlierChartType = "bar" ∧ trendChartType = "line" := by
  refine ⟨fun records gf mf => rfl, fun results => ?_, rfl, by decide, rfl, rfl, rfl⟩
  unfold groupByChartTypeTool
  by_cases h : results.length ≤ 8
  · simp [h]
  · simp [h]

-- ── Top-N empty category filter: C10 ───────────────────────────────────────

/-- C10: when the detected compound categorical filter matches zero rankable
rows, the Top-N executor silently drops it — the result is the same as with
no filter at all, and with any rankable rows present the executor returns a
ranking rather than the no-qualifying-rows answer. -/
theorem topN_empty_filter_c10 (records : List Row) (schema : DatasetSchema) (n : Nat)
    (field : String) (desc : Bool) (cf cv : String)
    (h : (topNRankable records schema field).filter (matchesCategory schema cf cv) = []) :
    execTopN records schema n field desc (some (cf, cv)) =
      execTopN records schema n field desc none ∧
    (topNRankable records schema field ≠ [] →
      ∃ rows, execTopN records schema n field desc (some (cf, cv)) =
        TopNOutcome.ranked rows) := by
  have hpool : topNPool records schema field (some (cf, cv)) =
      topNPool records schema field none := by
    simp [topNPool, h]
  constructor
  · unfold execTopN topNRecords
    rw [hpool]
  · intro hne
    have hempty : (topNPool records schema field none).isEmpty = false := by
      have hr : topNPool records schema field none = topNRankable records schema field := rfl
      rw [hr]
      exact (isEmpty_false_iff _).mpr hne
    simp only [execTopN, hpool, hempty, Bool.false_eq_true, if_false]
    exact ⟨_, rfl⟩

/-- C10 witness: the crime filter matches no department row, and the
executor output with the filter equals the output without it. -/
theorem topN_empty_filter_c10_witness :
    execTopN exG (buildSchema exG) 2 "sales" true (some ("dept", "crime")) =
      execTopN exG (buildSchema exG) 2 "sales" true none :=
  (topN_empty_filter_c10 exG (buildSchema exG) 2 "sales" true "dept" "crime" (by decide)).1

/-- C6 witness: the amended threshold applied at the concrete dataset whose
sales column is fully numeric. -/
theorem numeric_threshold_c6_amended_witness :
    "sales" ∈ (buildSchema exG).numericFields :=
  (numeric_threshold_c6_amended exG "sales").mpr (by decide)

/-- C9 witness: the tool-calling route's group-by chart over the concrete
two-group breakdown is a pie chart. -/
theorem groupBy_chart_c9_amended_witness :
    groupByChartTypeTool (groupSumResultsTool exG "dept" "sales") = "pie" :=
  (groupBy_chart_c9_amended.2.1 (groupSumResultsTool exG "dept" "sales")).mpr (by decide)
